import Mathlib

/-!
Verification of the spatial grid aggregation engine of `src/app.py`
(territory-conquest model over Strava tracks).

The Python source is shallowly embedded over exact rationals:

* Python `round(x)` (round half to even) is `rhe : ℚ → ℤ`;
  `round(x, d)` is `roundDec d : ℚ → ℚ`.
* `to_key` / the grid quantizer (`get_cells_from_polyline`, lines 99-120)
  work over `ℚ`; Python `set` becomes `Finset`.
* `int(dist / (grid_size_deg * 0.5))` (a floor of a real square root of a
  rational) is computed exactly by `ratSqrtFloor` below.
* Python's stable `sorted` / `list.sort` becomes the stable insertion
  sort `sortBy` (a stable sort w.r.t. a total transitive comparator is
  unique, so any stable sort models CPython's Timsort).
* `datetime.strptime(s, "%Y-%m-%dT%H:%M:%SZ")` becomes `parseTimestamp`;
  a raised `ValueError` (which aborts the whole Flask request) is the
  `none` result threaded through as `Option`.
* The external collaborators (`get_city_from_db`, i.e. the Supabase
  region store, and shapely's point-in-polygon test) are parameters of
  the region-attribution embedding (`lookup` and `pip`).
-/

set_option linter.unusedTactic false

/- Batteries marks the arithmetic of `Rat` `@[irreducible]`; re-allow
unfolding so that `decide` can evaluate the embedded functions on
concrete inputs. -/
attribute [local semireducible] Rat.add Rat.mul Rat.inv Rat.sub Rat.ofScientific

/-! ### Rounding: Python `round` (half to even) over ℚ -/

/-- Python `round(x)`: round half to even, embedded on exact rationals. -/
def rhe (q : ℚ) : ℤ :=
  if q - ⌊q⌋ < 1/2 then ⌊q⌋
  else if 1/2 < q - ⌊q⌋ then ⌊q⌋ + 1
  else if Even ⌊q⌋ then ⌊q⌋ else ⌊q⌋ + 1

/-- Python `round(x, d)`: round to `d` decimal places, half to even. -/
def roundDec (d : ℕ) (x : ℚ) : ℚ := (rhe (x * 10 ^ d) : ℚ) / 10 ^ d

/-! ### The grid quantizer: `to_key` (src/app.py lines 104-106) -/

/-- One coordinate of `to_key`:
`round(round(x / grid_size_deg) * grid_size_deg, 6)`. -/
def quantize (g x : ℚ) : ℚ := roundDec 6 ((rhe (x / g) : ℚ) * g)

/-- `to_key(lat, lon)` from `get_cells_from_polyline` (lines 104-106). -/
def to_key (g lat lon : ℚ) : ℚ × ℚ := (quantize g lat, quantize g lon)

/-! ### Exact floor of the square root of a rational

`get_cells_from_polyline` computes `dist = (Δlat² + Δlon²) ** 0.5` and
`num_steps = int(dist / (grid_size_deg * 0.5))`.  Over the reals,
`⌊√d2 / (g/2)⌋ = ⌊√(4·d2/g²)⌋`, so the step count is the floor of the
square root of the nonnegative rational `4·d2/g²`, computed exactly
below: for `q = a/b` (in lowest terms), `⌊√(a/b)⌋ = ⌊√(a·b)/b⌋
= ⌊⌊√(a·b)⌋/b⌋`.  `isqrtNat` is a fuel-based (hence kernel-reducible)
integer square root. -/

def isqrtAux : ℕ → ℕ → ℕ
  | 0, _ => 0
  | fuel + 1, n =>
    if n = 0 then 0
    else
      let s := 2 * isqrtAux fuel (n / 4)
      if (s + 1) * (s + 1) ≤ n then s + 1 else s

def isqrtNat (n : ℕ) : ℕ := isqrtAux n n

/-- `⌊√q⌋` for a nonnegative rational `q`, computed exactly. -/
def ratSqrtFloor (q : ℚ) : ℕ := isqrtNat (q.num.toNat * q.den) / q.den

/-! ### `get_cells_from_polyline` (src/app.py lines 99-120) -/

/-- `num_steps = int(dist / (grid_size_deg * 0.5))` for the segment
`prev → curr`: equals `⌊√(4·d2/g²)⌋` where `d2` is the squared
degree-space distance. -/
def segSteps (g : ℚ) (prev curr : ℚ × ℚ) : ℕ :=
  ratSqrtFloor (4 * ((curr.1 - prev.1) ^ 2 + (curr.2 - prev.2) ^ 2) / g ^ 2)

/-- The interpolated cells inserted for one segment (the inner `for j`
loop, lines 115-117), in loop order: fractions `j/(num_steps+1)` for
`j = 1..num_steps`. -/
def interpPts (g : ℚ) (prev curr : ℚ × ℚ) : List (ℚ × ℚ) :=
  (List.range (segSteps g prev curr)).map (fun j =>
      let frac : ℚ := (j + 1) / (segSteps g prev curr + 1)
      to_key g (prev.1 + (curr.1 - prev.1) * frac)
               (prev.2 + (curr.2 - prev.2) * frac))

def interpCells (g : ℚ) (prev curr : ℚ × ℚ) : Finset (ℚ × ℚ) :=
  (interpPts g prev curr).toFinset

/-- Cells contributed by one consecutive pair `(prev, curr)` of the
polyline (lines 111-118): the interpolated cells when
`dist > grid_size_deg * 0.7` (equivalently `d2 > 0.49 g²`), plus the
quantized `curr` itself. -/
def segCells (g : ℚ) (prev curr : ℚ × ℚ) : Finset (ℚ × ℚ) :=
  (if (curr.1 - prev.1) ^ 2 + (curr.2 - prev.2) ^ 2 > 49/100 * g ^ 2
   then interpCells g prev curr else ∅) ∪ {to_key g curr.1 curr.2}

def cellsAux (g : ℚ) : ℚ × ℚ → List (ℚ × ℚ) → Finset (ℚ × ℚ) → Finset (ℚ × ℚ)
  | _, [], acc => acc
  | prev, c :: t, acc => cellsAux g c t (acc ∪ segCells g prev c)

/-- `get_cells_from_polyline(pts, grid_size_deg)` (lines 99-120). -/
def get_cells_from_polyline (pts : List (ℚ × ℚ)) (g : ℚ) : Finset (ℚ × ℚ) :=
  match pts with
  | [] => ∅
  | p :: rest => cellsAux g p rest {to_key g p.1 p.2}

/-- The two-point track of the C9 scenario. -/
def c9pts : List (ℚ × ℚ) := [(48.8566, 2.3522), (48.8576, 2.3522)]

/-- The C9 grid spacing: 100 meters, i.e. `100 / 111320` degrees. -/
def c9g : ℚ := 100 / 111320

/-! ### Stable sort (Python `sorted` / `list.sort`)

CPython's sort is stable; for a total, transitive boolean comparator a
stable sort is unique, so the insertion sort below is a faithful model. -/

def insertSorted {α : Type} (le : α → α → Bool) (x : α) : List α → List α
  | [] => [x]
  | y :: ys => if le x y then x :: y :: ys else y :: insertSorted le x ys

def sortBy {α : Type} (le : α → α → Bool) (l : List α) : List α :=
  l.foldr (insertSorted le) []

/-! ### Timestamps: `datetime.strptime(s, "%Y-%m-%dT%H:%M:%SZ")`

`strptime` either returns a datetime or raises `ValueError`; the embedding
returns `Option Stamp`.  The fields actually consumed downstream are the
year (`dt.year`, via `str(dt.year)`) and the month (`dt.strftime("%Y-%m")`,
modelled as the pair (year, month) ordered lexicographically, which for
four-digit years agrees with the string order of `"YYYY-MM"` keys). -/

structure Stamp where
  year : ℕ
  month : ℕ
  day : ℕ
  hour : ℕ
  minute : ℕ
  second : ℕ
deriving DecidableEq, Repr

def digitVal (c : Char) : Option ℕ :=
  if c.isDigit then some (c.toNat - 48) else none

def digits2 (a b : Char) : Option ℕ :=
  match digitVal a, digitVal b with
  | some x, some y => some (x * 10 + y)
  | _, _ => none

def digits4 (a b c d : Char) : Option ℕ :=
  match digits2 a b, digits2 c d with
  | some x, some y => some (x * 100 + y)
  | _, _ => none

def parseTimestamp (s : String) : Option Stamp :=
  match s.data with
  | [y1, y2, y3, y4, '-', m1, m2, '-', d1, d2, 'T',
     h1, h2, ':', n1, n2, ':', s1, s2, 'Z'] =>
    match digits4 y1 y2 y3 y4, digits2 m1 m2, digits2 d1 d2,
          digits2 h1 h2, digits2 n1 n2, digits2 s1 s2 with
    | some y, some mo, some d, some h, some mi, some se =>
      if 1 ≤ mo ∧ mo ≤ 12 ∧ 1 ≤ d ∧ d ≤ 31 ∧ h ≤ 23 ∧ mi ≤ 59 ∧ se ≤ 61
      then some ⟨y, mo, d, h, mi, se⟩ else none
    | _, _, _, _, _, _ => none
  | _ => none

/-- A cleaned Strava activity as cached by `get_strava_activities_cached`
(lines 141-149).  `polyline` holds the already-decoded point list
(`polyline.decode` is an external collaborator). -/
structure Track where
  type : String
  start_date_local : String
  polyline : List (ℚ × ℚ)
  distance : ℚ
deriving DecidableEq, Repr

/-- Python string `<=` (lexicographic by code point), used by
`activities.sort(key=lambda x: x['start_date_local'])`. -/
def charsLe : List Char → List Char → Bool
  | [], _ => true
  | _ :: _, [] => false
  | a :: as, b :: bs => if a < b then true else if b < a then false else charsLe as bs

def strLe (a b : String) : Bool := charsLe a.data b.data

/-! ### Insertion-ordered view of the cell set

`Finset.toList` is noncomputable, so the aggregation loop iterates the
cells of a track in the (deduplicated) order in which
`get_cells_from_polyline` adds them — a legitimate model of CPython's
unspecified set iteration order, since every use below is
order-independent.  `cellsListP` mirrors the `cells.add(...)` calls of
lines 99-120 one by one; its `toFinset` is `get_cells_from_polyline`. -/

/-- Insert into a duplicate-free list (a deterministic model of Python
`set.add`). -/
def pushNew {α : Type} [DecidableEq α] (l : List α) (x : α) : List α :=
  if x ∈ l then l else l ++ [x]

def segCellsL (g : ℚ) (prev curr : ℚ × ℚ) (acc : List (ℚ × ℚ)) : List (ℚ × ℚ) :=
  let acc1 :=
    if (curr.1 - prev.1) ^ 2 + (curr.2 - prev.2) ^ 2 > 49/100 * g ^ 2
    then (interpPts g prev curr).foldl pushNew acc
    else acc
  pushNew acc1 (to_key g curr.1 curr.2)

def cellsAuxL (g : ℚ) : ℚ × ℚ → List (ℚ × ℚ) → List (ℚ × ℚ) → List (ℚ × ℚ)
  | _, [], acc => acc
  | prev, c :: t, acc => cellsAuxL g c t (segCellsL g prev c acc)

/-- The cells of a track as an insertion-ordered duplicate-free list. -/
def cellsListP (pts : List (ℚ × ℚ)) (g : ℚ) : List (ℚ × ℚ) :=
  match pts with
  | [] => []
  | p :: rest => cellsAuxL g p rest (pushNew [] (to_key g p.1 p.2))

/-! ### `get_stats_history` (src/app.py lines 197-264), core loop -/

/-- Mutable state of the aggregation loop of `get_stats_history`:
`monthly_data` (an insertion-ordered association list, as a Python dict),
`global_seen`, `total_blocks`, and the facet sets. -/
structure HistState where
  monthly : List ((ℕ × ℕ) × ℕ × ℕ)
  global_seen : Finset (ℚ × ℚ)
  total_blocks : ℕ
  availYears : List String
  availSports : List String

def findMonth (md : List ((ℕ × ℕ) × ℕ × ℕ)) (k : ℕ × ℕ) : Option (ℕ × ℕ) :=
  (md.find? (fun e => decide (e.1 = k))).map (·.2)

/-- `if m_key not in monthly_data: monthly_data[m_key] = {'new': 0, 'routine': 0}` -/
def ensureMonth (md : List ((ℕ × ℕ) × ℕ × ℕ)) (k : ℕ × ℕ) :
    List ((ℕ × ℕ) × ℕ × ℕ) :=
  if (md.find? (fun e => decide (e.1 = k))).isSome then md else md ++ [(k, (0, 0))]

/-- In-place update of the bucket at key `k` (a Python dict item update). -/
def updMonth (md : List ((ℕ × ℕ) × ℕ × ℕ)) (k : ℕ × ℕ) (f : ℕ × ℕ → ℕ × ℕ) :
    List ((ℕ × ℕ) × ℕ × ℕ) :=
  md.map (fun e => if e.1 = k then (e.1, f e.2) else e)

/-- The body of `for b in blocks:` (lines 239-245). -/
def processBlock (m : ℕ × ℕ) (st : HistState) (b : ℚ × ℚ) : HistState :=
  if b ∈ st.global_seen then
    { st with monthly := updMonth st.monthly m (fun p => (p.1, p.2 + 1)) }
  else
    { st with
      monthly := updMonth st.monthly m (fun p => (p.1 + 1, p.2)),
      global_seen := insert b st.global_seen,
      total_blocks := st.total_blocks + 1 }

/-- The body of `for act in activities:` (lines 222-245).  A `none`
result is `datetime.strptime` raising `ValueError`, which aborts the
whole request. -/
def processTrack (g : ℚ) (sel_year sel_sport : String) (st : HistState)
    (t : Track) : Option HistState :=
  match parseTimestamp t.start_date_local with
  | none => none
  | some dt =>
    let y_str := toString dt.year
    let m_key := (dt.year, dt.month)
    let st := { st with
      availYears := pushNew st.availYears y_str,
      availSports := pushNew st.availSports t.type }
    if (sel_year ≠ "all" ∧ y_str ≠ sel_year) ∨
       (sel_sport ≠ "all" ∧ t.type ≠ sel_sport) then some st
    else
      let st := { st with monthly := ensureMonth st.monthly m_key }
      some ((cellsListP t.polyline g).foldl (processBlock m_key) st)

def histLoop (g : ℚ) (sel_year sel_sport : String) :
    List Track → HistState → Option HistState
  | [], st => some st
  | t :: ts, st =>
    match processTrack g sel_year sel_sport st t with
    | none => none
    | some st' => histLoop g sel_year sel_sport ts st'

/-- The series-building loop (lines 247-254): cumulative `conquest`,
per-month `exploration` (new) and `routine`. -/
def buildSeries (md : List ((ℕ × ℕ) × ℕ × ℕ)) :
    List (ℕ × ℕ) → ℕ → List ℕ × List ℕ × List ℕ
  | [], _ => ([], [], [])
  | m :: rest, running =>
    let e := (findMonth md m).getD (0, 0)
    let r := running + e.1
    let s := buildSeries md rest r
    (r :: s.1, e.1 :: s.2.1, e.2 :: s.2.2)

def monthLeB (a b : ℕ × ℕ) : Bool :=
  decide (a.1 < b.1 ∨ (a.1 = b.1 ∧ a.2 ≤ b.2))

/-- The JSON payload of `/api/stats_history` (line 256-261), month keys
as (year, month). -/
structure HistResult where
  labels : List (ℕ × ℕ)
  conquest : List ℕ
  exploration : List ℕ
  routine : List ℕ
  total_blocks : ℕ
  available_years : List String
  available_sports : List String
deriving DecidableEq, Repr

def get_stats_history (tracks : List Track) (grid_meters : ℤ)
    (sel_year sel_sport : String) : Option HistResult :=
  let g : ℚ := (grid_meters : ℚ) / 111320
  let acts := sortBy (fun a b => strLe a.start_date_local b.start_date_local) tracks
  match histLoop g sel_year sel_sport acts ⟨[], ∅, 0, [], []⟩ with
  | none => none
  | some st =>
    let labels := sortBy monthLeB (st.monthly.map (·.1))
    let s := buildSeries st.monthly labels 0
    some ⟨labels, s.1, s.2.1, s.2.2, st.total_blocks,
          sortBy (fun a b => strLe b a) st.availYears,
          sortBy strLe st.availSports⟩

/-! ### Specification-side views of the scan -/

/-- Whether a track passes the year/sport filter (and parses). -/
def passesFilter (sel_year sel_sport : String) (t : Track) : Bool :=
  match parseTimestamp t.start_date_local with
  | none => false
  | some dt =>
    ¬((sel_year ≠ "all" ∧ toString dt.year ≠ sel_year) ∨
      (sel_sport ≠ "all" ∧ t.type ≠ sel_sport))

def trackCells (g : ℚ) (t : Track) : Finset (ℚ × ℚ) :=
  get_cells_from_polyline t.polyline g

/-- The set of distinct cells observed in the scan: the union of the
cell sets of the filter-passing tracks. -/
def observedCells (g : ℚ) (sel_year sel_sport : String) (l : List Track) :
    Finset (ℚ × ℚ) :=
  (l.filter (passesFilter sel_year sel_sport)).foldr
    (fun t acc => trackCells g t ∪ acc) ∅

/-- The number of (track, cell)-occurrence pairs scanned: each cell of
each filter-passing track's cell set counts once. -/
def pairCount (g : ℚ) (sel_year sel_sport : String) (l : List Track) : ℕ :=
  ((l.filter (passesFilter sel_year sel_sport)).map
    (fun t => (trackCells g t).card)).sum

/-! ### Observers of the monthly buckets -/

def monthKeys (md : List ((ℕ × ℕ) × ℕ × ℕ)) : List (ℕ × ℕ) := md.map (·.1)

def newSum (md : List ((ℕ × ℕ) × ℕ × ℕ)) : ℕ := (md.map (fun e => e.2.1)).sum

def rouSum (md : List ((ℕ × ℕ) × ℕ × ℕ)) : ℕ := (md.map (fun e => e.2.2)).sum

/-- A parseable one-point activity used as a concrete witness input. -/
def tGood : Track := ⟨"Run", "2021-03-04T10:00:00Z", [(0, 0)], 5⟩

/-- An activity whose start timestamp `strptime` cannot parse. -/
def tBad : Track := ⟨"Run", "not-a-date", [(0, 0)], 0⟩

/-- The aggregation result of `[tGood]` at grid size 100. -/
def resGood : HistResult := ⟨[(2021, 3)], [1], [1], [0], 1, ["2021"], ["Run"]⟩

/-! ### Region attribution (src/app.py lines 324-388)

The external collaborators are parameters: `lookup` is
`get_city_from_db` (the Supabase region store: point → region name,
geodesic area in m², boundary ring), and `pip` is shapely's
point-in-polygon test `prep(Polygon(outline)).contains(Point(...))`.
`Polygon(...)` raises (and the surrounding `try` skips the region) when
the outline has fewer than 3 points; that is the only exception source
modelled.  `lookups` and `seenNames` are ghost observers recording the
store calls issued and every region obtained during the scan. -/

structure Muni where
  name : String
  area_m2 : ℚ
  outline : List (ℚ × ℚ)
deriving DecidableEq, Repr

structure CityStat where
  name : String
  outline : List (ℚ × ℚ)
  blocks : ℕ
  percent : ℚ
deriving DecidableEq, Repr

structure RegionState where
  cache : List ((ℚ × ℚ) × Muni)
  cities : List (String × CityStat)
  lookups : ℕ
  seenNames : List String
deriving DecidableEq, Repr

/-- `poly_geom.bounds` (line 365): the envelope of the outline. -/
def bboxOf (o : List (ℚ × ℚ)) : ℚ × ℚ × ℚ × ℚ :=
  match o with
  | [] => (0, 0, 0, 0)
  | p :: rest => rest.foldl (fun acc q =>
      (min acc.1 q.1, min acc.2.1 q.2, max acc.2.2.1 q.1, max acc.2.2.2 q.2))
      (p.1, p.2, p.1, p.2)

/-- `min_lat <= clat <= max_lat and min_lon <= clon <= max_lon` (line 368). -/
def inBBox (o : List (ℚ × ℚ)) (c : ℚ × ℚ) : Bool :=
  let b := bboxOf o
  decide (b.1 ≤ c.1 ∧ c.1 ≤ b.2.2.1 ∧ b.2.1 ≤ c.2 ∧ c.2 ≤ b.2.2.2)

/-- `count_inside` (lines 361-370): cells passing the bounding-box
pre-filter and the exact point-in-polygon test. -/
def countInside (pip : List (ℚ × ℚ) → ℚ × ℚ → Bool) (outline : List (ℚ × ℚ))
    (gridKeys : List (ℚ × ℚ)) : ℕ :=
  gridKeys.countP (fun c => inBBox outline c && pip outline c)

/-- The `if muni:` body (lines 353-386). -/
def handleMuni (pip : List (ℚ × ℚ) → ℚ × ℚ → Bool) (gm : ℤ)
    (gridKeys : List (ℚ × ℚ)) (m : Muni) (st : RegionState) : RegionState :=
  let st1 := { st with seenNames := st.seenNames ++ [m.name] }
  if (st1.cities.find? (fun e => decide (e.1 = m.name))).isSome ∨
     ¬ st1.cities.length < 50 then st1
  else if m.outline.length < 3 then st1
  else
    let cnt := countInside pip m.outline gridKeys
    if 0 < cnt then
      let pct := ((cnt : ℚ) * ((gm : ℚ)) ^ 2 / m.area_m2) * 100
      { st1 with cities := st1.cities ++
          [(m.name, ⟨m.name, m.outline, cnt, roundDec 2 (min pct 100)⟩)] }
    else st1

/-- One iteration of `for lat, lon in scan_points:` (lines 338-386). -/
def processPoint (lookup : ℚ → ℚ → Option Muni)
    (pip : List (ℚ × ℚ) → ℚ × ℚ → Bool) (gm : ℤ) (gridKeys : List (ℚ × ℚ))
    (st : RegionState) (p : ℚ × ℚ) : RegionState :=
  let approx := (roundDec 2 p.1, roundDec 2 p.2)
  match st.cache.find? (fun e => decide (e.1 = approx)) with
  | some e => handleMuni pip gm gridKeys e.2 st
  | none =>
    let st1 := { st with lookups := st.lookups + 1 }
    match lookup p.1 p.2 with
    | none => st1
    | some m => handleMuni pip gm gridKeys m { st1 with cache := st1.cache ++ [(approx, m)] }

/-- `scan_points` (lines 330-331): the keys of the 400 most-visited
cells, stably sorted by visit count descending. -/
def scanPoints (grid_store : List ((ℚ × ℚ) × ℕ)) : List (ℚ × ℚ) :=
  ((sortBy (fun a b => decide (b.2 ≤ a.2)) grid_store).take 400).map (·.1)

def regionPhase (lookup : ℚ → ℚ → Option Muni)
    (pip : List (ℚ × ℚ) → ℚ × ℚ → Bool) (gm : ℤ)
    (grid_store : List ((ℚ × ℚ) × ℕ)) : RegionState :=
  (scanPoints grid_store).foldl
    (processPoint lookup pip gm (grid_store.map (·.1))) ⟨[], [], 0, []⟩

/-- `data["top_municipalities"]` (lines 328-388): the identified regions
ranked by cells-inside count descending (empty when the grid store is
empty, line 328). -/
def top_municipalities (lookup : ℚ → ℚ → Option Muni)
    (pip : List (ℚ × ℚ) → ℚ × ℚ → Bool) (gm : ℤ)
    (grid_store : List ((ℚ × ℚ) × ℕ)) : List CityStat :=
  if grid_store.isEmpty then []
  else sortBy (fun a b => decide (b.blocks ≤ a.blocks))
    ((regionPhase lookup pip gm grid_store).cities.map (·.2))

/-! ### Invariants of the region scan -/

/-- What is true of every entry of `identified_cities`: it was built
from a region object `m` satisfying `prov` (instantiated below with
"returned by the store at some scan point"), its cells-inside count is
the exact bbox-prefiltered point-in-polygon count over the whole grid
store, that count is positive, and its percentage is the clamped,
2-decimal-rounded area ratio. -/
def CityOk (pip : List (ℚ × ℚ) → ℚ × ℚ → Bool) (gm : ℤ)
    (gridKeys : List (ℚ × ℚ)) (prov : Muni → Prop) (e : String × CityStat) : Prop :=
  ∃ m : Muni, prov m ∧ e.2.name = m.name ∧ e.2.outline = m.outline ∧
    e.2.blocks = countInside pip m.outline gridKeys ∧ 0 < e.2.blocks ∧
    e.2.percent
      = roundDec 2 (min (((e.2.blocks : ℚ) * ((gm : ℚ)) ^ 2 / m.area_m2) * 100) 100)

/-! ### Concrete region-attribution scenarios -/

/-- A store of 71 once-visited cells at distinct coarse positions. -/
def store71 : List ((ℚ × ℚ) × ℕ) :=
  (List.range 71).map (fun i => (((i : ℚ), (0 : ℚ)), 1))

/-- A region store returning a distinct region for each of those cells. -/
def oracle71 : ℚ → ℚ → Option Muni :=
  fun lat _ => some ⟨"R" ++ toString lat.num, 1, [(0, 0), (1, 0), (0, 1)]⟩

def pipFalse : List (ℚ × ℚ) → ℚ × ℚ → Bool := fun _ _ => false

def pipTrue : List (ℚ × ℚ) → ℚ × ℚ → Bool := fun _ _ => true

/-- A store with a single visited cell. -/
def store1 : List ((ℚ × ℚ) × ℕ) := [(((0 : ℚ), (0 : ℚ)), 1)]

/-- A region store returning one region of area 30000 m². -/
def oracleA : ℚ → ℚ → Option Muni :=
  fun _ _ => some ⟨"A", 30000, [(-1, -1), (2, -1), (0, 2)]⟩

/-- The region stats produced for `store1` under `oracleA` at grid size
100: one cell inside, coverage `round(min(100·10000/30000, 100), 2)`
= 33.33. -/
def rA : CityStat := ⟨"A", [(-1, -1), (2, -1), (0, 2)], 1, 3333/100⟩

/-! ### Theorems -/

theorem rhe_intCast (n : ℤ) : rhe (n : ℚ) = n := by
  simp [rhe]

theorem abs_sub_rhe_le (q : ℚ) : |q - rhe q| ≤ 1/2 := by
  have h0 : (⌊q⌋ : ℚ) ≤ q := Int.floor_le q
  have h1 : q < ⌊q⌋ + 1 := Int.lt_floor_add_one q
  unfold rhe
  split
  · rw [abs_le]; constructor <;> push_cast <;> linarith
  · split
    · rw [abs_le]; constructor <;> push_cast <;> linarith
    · split
      · rw [abs_le]; constructor <;> push_cast <;> linarith
      · rw [abs_le]; constructor <;> push_cast <;> linarith

theorem rhe_eq_of_abs_lt {q : ℚ} {n : ℤ} (h : |q - n| < 1/2) : rhe q = n := by
  rw [abs_lt] at h
  rcases le_or_lt (n : ℚ) q with hle | hlt
  · have hfl : ⌊q⌋ = n := by
      rw [Int.floor_eq_iff]
      constructor
      · exact_mod_cast hle
      · push_cast; linarith [h.2]
    unfold rhe
    rw [hfl]
    rw [if_pos]
    linarith [h.2]
  · have hfl : ⌊q⌋ = n - 1 := by
      rw [Int.floor_eq_iff]
      constructor
      · push_cast; linarith [h.1]
      · push_cast; linarith
    unfold rhe
    rw [hfl]
    rw [if_neg, if_pos]
    · omega
    · push_cast; linarith [h.1]
    · push_cast
      intro hc
      linarith [h.1]

theorem rhe_le (q : ℚ) : (rhe q : ℚ) ≤ q + 1/2 := by
  have := abs_sub_rhe_le q
  rw [abs_le] at this
  linarith [this.1]

theorem le_rhe (q : ℚ) : q - 1/2 ≤ (rhe q : ℚ) := by
  have := abs_sub_rhe_le q
  rw [abs_le] at this
  linarith [this.2]

theorem rhe_mono {x y : ℚ} (h : x ≤ y) : rhe x ≤ rhe y := by
  by_contra hc
  push_neg at hc
  have h1 : (rhe y : ℚ) + 1 ≤ (rhe x : ℚ) := by exact_mod_cast Int.add_one_le_of_lt hc
  have h2 : (rhe x : ℚ) ≤ x + 1/2 := rhe_le x
  have h3 : y - 1/2 ≤ (rhe y : ℚ) := le_rhe y
  have hxy : x = y := le_antisymm h (by linarith)
  rw [hxy] at hc
  exact lt_irrefl _ hc

theorem abs_roundDec_sub_le (d : ℕ) (x : ℚ) :
    |roundDec d x - x| ≤ 1 / (2 * 10 ^ d) := by
  have hp : (0:ℚ) < 10 ^ d := by positivity
  have h := abs_sub_rhe_le (x * 10 ^ d)
  have h2 : |(rhe (x * 10 ^ d) : ℚ) - x * 10 ^ d| ≤ 1/2 := by
    rwa [abs_sub_comm] at h
  have key : roundDec d x - x = ((rhe (x * 10 ^ d) : ℚ) - x * 10 ^ d) / 10 ^ d := by
    unfold roundDec
    field_simp
    ring
  rw [key, abs_div, abs_of_pos hp, div_le_div_iff hp (by positivity)]
  nlinarith [h2, hp]

theorem roundDec_eq_of_near (d : ℕ) (x : ℚ) (k : ℤ)
    (h : |x - k / 10 ^ d| < 1 / (2 * 10 ^ d)) : roundDec d x = k / 10 ^ d := by
  have hp : (0:ℚ) < 10 ^ d := by positivity
  have h2 : |x * 10 ^ d - k| < 1/2 := by
    have e : x * 10 ^ d - (k : ℚ) = (x - k / 10 ^ d) * 10 ^ d := by field_simp
    rw [e, abs_mul, abs_of_pos hp]
    calc |x - (k : ℚ) / 10 ^ d| * 10 ^ d
        < 1 / (2 * 10 ^ d) * 10 ^ d := mul_lt_mul_of_pos_right h hp
      _ = 1/2 := by field_simp; ring
  unfold roundDec
  rw [rhe_eq_of_abs_lt h2]

theorem roundDec_int_div (d : ℕ) (k : ℤ) :
    roundDec d ((k : ℚ) / 10 ^ d) = (k : ℚ) / 10 ^ d := by
  have hp : (10:ℚ) ^ d ≠ 0 := by positivity
  unfold roundDec
  rw [div_mul_cancel₀ _ hp, rhe_intCast]

theorem roundDec_mono (d : ℕ) {x y : ℚ} (h : x ≤ y) :
    roundDec d x ≤ roundDec d y := by
  have hp : (0:ℚ) < 10 ^ d := by positivity
  unfold roundDec
  apply div_le_div_of_nonneg_right _ hp.le
  · exact_mod_cast rhe_mono (mul_le_mul_of_nonneg_right h (le_of_lt hp))

theorem quantize_idem (g x : ℚ) (hg : 0 < g) :
    quantize g (quantize g x) = quantize g x := by
  have unfold1 : ∀ y : ℚ, quantize g y = roundDec 6 ((rhe (y / g) : ℚ) * g) :=
    fun _ => rfl
  set n := rhe (x / g) with hn
  have hq : quantize g x = (rhe ((n : ℚ) * g * 10 ^ 6) : ℚ) / 10 ^ 6 := rfl
  set k := rhe ((n : ℚ) * g * 10 ^ 6) with hk
  have hg' : g ≠ 0 := ne_of_gt hg
  have hnear : |quantize g x - (n : ℚ) * g| ≤ 1 / (2 * 10 ^ 6) :=
    abs_roundDec_sub_le 6 ((n : ℚ) * g)
  rcases lt_trichotomy g (1 / 10 ^ 6) with hlt | heq | hgt
  · -- grid spacing below the rounding precision
    set m := rhe (quantize g x / g) with hm
    have h1 : |(m : ℚ) - quantize g x / g| ≤ 1/2 := by
      rw [abs_sub_comm]; exact abs_sub_rhe_le _
    have h2 : |(m : ℚ) * g - quantize g x| ≤ g / 2 := by
      have e : (m : ℚ) * g - quantize g x = ((m : ℚ) - quantize g x / g) * g := by
        field_simp
      rw [e, abs_mul, abs_of_pos hg]
      calc |(m : ℚ) - quantize g x / g| * g ≤ (1/2) * g :=
            mul_le_mul_of_nonneg_right h1 hg.le
        _ = g / 2 := by ring
    have h3 : |(m : ℚ) * g - (k : ℚ) / 10 ^ 6| < 1 / (2 * 10 ^ 6) := by
      rw [← hq]
      calc |(m : ℚ) * g - quantize g x| ≤ g / 2 := h2
        _ < (1 / 10 ^ 6) / 2 := by linarith
        _ = 1 / (2 * 10 ^ 6) := by ring
    rw [unfold1 (quantize g x), ← hm, roundDec_eq_of_near 6 _ k h3, hq]
  · -- grid spacing is exactly 10⁻⁶
    have hng : (n : ℚ) * g = (n : ℚ) / 10 ^ 6 := by rw [heq]; ring
    have hqx : quantize g x = (n : ℚ) * g := by
      rw [unfold1 x, ← hn]
      unfold roundDec
      rw [hng, div_mul_cancel₀ _ (by positivity : (10:ℚ) ^ 6 ≠ 0), rhe_intCast]
    have hdiv : quantize g x / g = (n : ℚ) := by
      rw [hqx, mul_div_assoc, div_self hg', mul_one]
    rw [unfold1 (quantize g x), hdiv, rhe_intCast, hqx, hng]
    exact roundDec_int_div 6 n
  · -- grid spacing above the rounding precision
    have h1 : |quantize g x / g - (n : ℚ)| < 1/2 := by
      have e : quantize g x / g - (n : ℚ) = (quantize g x - (n : ℚ) * g) / g := by
        field_simp
        ring
      rw [e, abs_div, abs_of_pos hg, div_lt_iff hg]
      have h3 : 1 / (2 * 10 ^ 6 : ℚ) < 1/2 * g := by
        have : (1 : ℚ) / (2 * 10 ^ 6) = 1/2 * (1 / 10 ^ 6) := by norm_num
        rw [this]
        linarith
      calc |quantize g x - (n : ℚ) * g| ≤ 1 / (2 * 10 ^ 6) := hnear
        _ < 1/2 * g := h3
    rw [unfold1 (quantize g x), rhe_eq_of_abs_lt h1, unfold1 x, ← hn]

/-- Claim C4: quantization is idempotent — for all (lat, lon, spacing) with
spacing > 0, `to_key` applied to an already-quantized point returns the
same point. -/
theorem claim_C4 (lat lon g : ℚ) (hg : 0 < g) :
    to_key g (to_key g lat lon).1 (to_key g lat lon).2 = to_key g lat lon := by
  unfold to_key
  exact Prod.ext (quantize_idem g lat hg) (quantize_idem g lon hg)

/-- Witness for C4 at the concrete input (1/3, 5/7) with spacing 1. -/
theorem claim_C4_witness :
    (0:ℚ) < 1 ∧
      to_key 1 (to_key 1 (1/3) (5/7)).1 (to_key 1 (1/3) (5/7)).2 =
        to_key 1 (1/3) (5/7) :=
  ⟨by norm_num, claim_C4 (1/3) (5/7) 1 (by norm_num)⟩

theorem isqrtAux_spec : ∀ fuel n, n < 4 ^ fuel →
    isqrtAux fuel n * isqrtAux fuel n ≤ n ∧ n < (isqrtAux fuel n + 1) * (isqrtAux fuel n + 1) := by
  intro fuel
  induction fuel with
  | zero => intro n h; simp at h; subst h; simp [isqrtAux]
  | succ f ih =>
    intro n h
    by_cases hn : n = 0
    · subst hn; simp [isqrtAux]
    · have h4 : n / 4 < 4 ^ f := by
        have : n < 4 * 4 ^ f := by rw [pow_succ] at h; omega
        omega
      obtain ⟨hlo, hhi⟩ := ih (n / 4) h4
      unfold isqrtAux
      rw [if_neg hn]
      set s := 2 * isqrtAux f (n / 4) with hs
      have hslo : s * s ≤ n := by
        have : s * s = 4 * (isqrtAux f (n / 4) * isqrtAux f (n / 4)) := by rw [hs]; ring
        rw [this]
        omega
      have hshi : n < (s + 2) * (s + 2) := by
        have he : (s + 2) * (s + 2) = 4 * ((isqrtAux f (n / 4) + 1) * (isqrtAux f (n / 4) + 1)) := by
          rw [hs]; ring
        rw [he]
        omega
      by_cases hc : (s + 1) * (s + 1) ≤ n
      · rw [if_pos hc]
        exact ⟨hc, hshi⟩
      · rw [if_neg hc]
        omega

theorem isqrtNat_spec (n : ℕ) :
    isqrtNat n * isqrtNat n ≤ n ∧ n < (isqrtNat n + 1) * (isqrtNat n + 1) := by
  have h : n < 4 ^ n := by
    calc n < 2 ^ n := Nat.lt_two_pow n
      _ ≤ 4 ^ n := Nat.pow_le_pow_left (by norm_num) n
  exact isqrtAux_spec n n h

theorem subset_cellsAux (g : ℚ) :
    ∀ (rest : List (ℚ × ℚ)) (prev : ℚ × ℚ) (acc : Finset (ℚ × ℚ)),
      acc ⊆ cellsAux g prev rest acc := by
  intro rest
  induction rest with
  | nil => intro prev acc; exact subset_rfl
  | cons c t ih =>
    intro prev acc
    calc acc ⊆ acc ∪ segCells g prev c := Finset.subset_union_left
      _ ⊆ cellsAux g c t (acc ∪ segCells g prev c) := ih c _

theorem to_key_mem_segCells (g : ℚ) (prev curr : ℚ × ℚ) :
    to_key g curr.1 curr.2 ∈ segCells g prev curr := by
  unfold segCells
  exact Finset.mem_union_right _ (Finset.mem_singleton_self _)

theorem last_mem_cellsAux (g : ℚ) :
    ∀ (rest : List (ℚ × ℚ)) (prev : ℚ × ℚ) (acc : Finset (ℚ × ℚ)),
      to_key g prev.1 prev.2 ∈ acc →
      to_key g (rest.getLastD prev).1 (rest.getLastD prev).2 ∈ cellsAux g prev rest acc := by
  intro rest
  induction rest with
  | nil => intro prev acc h; exact h
  | cons c t ih =>
    intro prev acc h
    rw [List.getLastD_cons]
    exact ih c _ (Finset.mem_union_right _ (to_key_mem_segCells g prev c))

/-- Claim C8: densification never loses endpoints.  For the empty list
`get_cells_from_polyline` returns the empty set; for any non-empty list
`p :: rest` (with spacing > 0) the result contains the quantized first
point and the quantized last point (`rest.getLastD p` is the last point
of `p :: rest`). -/
theorem claim_C8 (g : ℚ) (hg : 0 < g) :
    get_cells_from_polyline [] g = ∅ ∧
    ∀ (p : ℚ × ℚ) (rest : List (ℚ × ℚ)),
      to_key g p.1 p.2 ∈ get_cells_from_polyline (p :: rest) g ∧
      to_key g (rest.getLastD p).1 (rest.getLastD p).2 ∈
        get_cells_from_polyline (p :: rest) g := by
  refine ⟨rfl, fun p rest => ⟨?_, ?_⟩⟩
  · exact subset_cellsAux g rest p _ (Finset.mem_singleton_self _)
  · exact last_mem_cellsAux g rest p _ (Finset.mem_singleton_self _)

/-- Witness for C8: a concrete two-point track with spacing 1. -/
theorem claim_C8_witness :
    to_key 1 (0:ℚ) (0:ℚ) ∈ get_cells_from_polyline [((0:ℚ), (0:ℚ)), ((5:ℚ), (0:ℚ))] 1 ∧
    to_key 1 (5:ℚ) (0:ℚ) ∈ get_cells_from_polyline [((0:ℚ), (0:ℚ)), ((5:ℚ), (0:ℚ))] 1 := by
  have h := (claim_C8 1 (by norm_num)).2 ((0:ℚ), (0:ℚ)) [((5:ℚ), (0:ℚ))]
  exact ⟨h.1, h.2⟩

/-- Counterexample for C9: on the spec's own scenario the code inserts
`int(0.001 / (c9g * 0.5)) = 2` intermediate points (not 1), and the
returned cell set has 2 elements (not 3): both interpolated points and
the second endpoint quantize to the same cell. -/
theorem claim_C9_counterexample :
    ¬ (segSteps c9g (48.8566, 2.3522) (48.8576, 2.3522) = 1 ∧
       (get_cells_from_polyline c9pts c9g).card = 3) := by
  decide

/-- Claim C9 (amended): for the two-point track (48.8566, 2.3522),
(48.8576, 2.3522) with spacing 100/111320°, the densification step
inserts exactly two intermediate interpolated points and
`get_cells_from_polyline` returns a set of exactly 2 cells. -/
theorem claim_C9_amended :
    segSteps c9g (48.8566, 2.3522) (48.8576, 2.3522) = 2 ∧
    (get_cells_from_polyline c9pts c9g).card = 2 := by
  constructor
  · decide
  · decide

theorem insertSorted_perm {α : Type} (le : α → α → Bool) (x : α) :
    ∀ l : List α, List.Perm (insertSorted le x l) (x :: l) := by
  intro l
  induction l with
  | nil => exact List.Perm.refl _
  | cons y ys ih =>
    unfold insertSorted
    split
    · exact List.Perm.refl _
    · exact List.Perm.trans (List.Perm.cons y ih) (List.Perm.swap x y ys)

theorem sortBy_perm {α : Type} (le : α → α → Bool) :
    ∀ l : List α, List.Perm (sortBy le l) l := by
  intro l
  induction l with
  | nil => exact List.Perm.refl _
  | cons y ys ih =>
    exact List.Perm.trans (insertSorted_perm le y _) (List.Perm.cons y ih)

/-! ### Bridging the list view of a track's cells to the set view -/

theorem pushNew_toFinset {α : Type} [DecidableEq α] (l : List α) (x : α) :
    (pushNew l x).toFinset = insert x l.toFinset := by
  unfold pushNew
  split
  · rename_i h
    rw [Finset.insert_eq_self.mpr (List.mem_toFinset.mpr h)]
  · ext y
    simp only [List.toFinset_append, Finset.mem_union, Finset.mem_insert,
      List.mem_toFinset, List.toFinset_cons, List.toFinset_nil,
      Finset.not_mem_empty, or_false, Finset.mem_singleton]
    tauto

theorem pushNew_nodup {α : Type} [DecidableEq α] (l : List α) (x : α)
    (h : l.Nodup) : (pushNew l x).Nodup := by
  unfold pushNew
  split
  · exact h
  · rename_i hx
    simpa [List.nodup_append] using ⟨h, hx⟩

theorem foldl_pushNew_toFinset {α : Type} [DecidableEq α] :
    ∀ (li : List α) (acc : List α),
      (li.foldl pushNew acc).toFinset = acc.toFinset ∪ li.toFinset := by
  intro li
  induction li with
  | nil => intro acc; simp
  | cons b bs ih =>
    intro acc
    show ((bs.foldl pushNew (pushNew acc b))).toFinset = _
    rw [ih, pushNew_toFinset]
    ext y
    simp only [List.toFinset_cons, Finset.mem_union, Finset.mem_insert,
      List.mem_toFinset]
    tauto

theorem foldl_pushNew_nodup {α : Type} [DecidableEq α] :
    ∀ (li : List α) (acc : List α), acc.Nodup → (li.foldl pushNew acc).Nodup := by
  intro li
  induction li with
  | nil => intro acc h; exact h
  | cons b bs ih => intro acc h; exact ih _ (pushNew_nodup _ _ h)

theorem segCellsL_toFinset (g : ℚ) (prev curr : ℚ × ℚ) (acc : List (ℚ × ℚ)) :
    (segCellsL g prev curr acc).toFinset = acc.toFinset ∪ segCells g prev curr := by
  unfold segCellsL segCells interpCells
  split
  · rename_i h
    rw [pushNew_toFinset, foldl_pushNew_toFinset]
    ext y
    simp only [Finset.mem_insert, Finset.mem_union, List.mem_toFinset,
      Finset.mem_singleton]
    tauto
  · rename_i h
    rw [pushNew_toFinset]
    ext y
    simp only [Finset.mem_insert, Finset.mem_union, Finset.not_mem_empty,
      Finset.mem_singleton, false_or]
    tauto

theorem segCellsL_nodup (g : ℚ) (prev curr : ℚ × ℚ) (acc : List (ℚ × ℚ))
    (h : acc.Nodup) : (segCellsL g prev curr acc).Nodup := by
  unfold segCellsL
  apply pushNew_nodup
  split
  · exact foldl_pushNew_nodup _ _ h
  · exact h

theorem cellsAuxL_toFinset (g : ℚ) :
    ∀ (rest : List (ℚ × ℚ)) (prev : ℚ × ℚ) (acc : List (ℚ × ℚ)),
      (cellsAuxL g prev rest acc).toFinset = cellsAux g prev rest acc.toFinset := by
  intro rest
  induction rest with
  | nil => intro prev acc; rfl
  | cons c t ih =>
    intro prev acc
    show (cellsAuxL g c t (segCellsL g prev c acc)).toFinset = _
    rw [ih, segCellsL_toFinset]
    rfl

theorem cellsAuxL_nodup (g : ℚ) :
    ∀ (rest : List (ℚ × ℚ)) (prev : ℚ × ℚ) (acc : List (ℚ × ℚ)),
      acc.Nodup → (cellsAuxL g prev rest acc).Nodup := by
  intro rest
  induction rest with
  | nil => intro prev acc h; exact h
  | cons c t ih => intro prev acc h; exact ih c _ (segCellsL_nodup g prev c acc h)

theorem cellsListP_toFinset (pts : List (ℚ × ℚ)) (g : ℚ) :
    (cellsListP pts g).toFinset = get_cells_from_polyline pts g := by
  match pts with
  | [] => rfl
  | p :: rest =>
    show (cellsAuxL g p rest (pushNew [] (to_key g p.1 p.2))).toFinset = _
    rw [cellsAuxL_toFinset, pushNew_toFinset]
    rfl

theorem cellsListP_nodup (pts : List (ℚ × ℚ)) (g : ℚ) : (cellsListP pts g).Nodup := by
  match pts with
  | [] => exact List.nodup_nil
  | p :: rest =>
    exact cellsAuxL_nodup g rest p _ (pushNew_nodup [] _ List.nodup_nil)

theorem cellsListP_length (pts : List (ℚ × ℚ)) (g : ℚ) :
    (cellsListP pts g).length = (get_cells_from_polyline pts g).card := by
  rw [← cellsListP_toFinset, List.toFinset_card_of_nodup (cellsListP_nodup pts g)]

/-! ### Month-bucket lemmas -/

theorem updMonth_keys (md : List ((ℕ × ℕ) × ℕ × ℕ)) (k : ℕ × ℕ)
    (f : ℕ × ℕ → ℕ × ℕ) : monthKeys (updMonth md k f) = monthKeys md := by
  unfold monthKeys updMonth
  rw [List.map_map]
  apply List.map_congr_left
  intro e _
  by_cases h : e.1 = k <;> simp [h]

theorem newSum_updMonth_routine (md : List ((ℕ × ℕ) × ℕ × ℕ)) (k : ℕ × ℕ) :
    newSum (updMonth md k (fun p => (p.1, p.2 + 1))) = newSum md := by
  unfold newSum updMonth
  rw [List.map_map]
  apply congrArg
  apply List.map_congr_left
  intro e _
  by_cases h : e.1 = k <;> simp [h]

theorem rouSum_updMonth_new (md : List ((ℕ × ℕ) × ℕ × ℕ)) (k : ℕ × ℕ) :
    rouSum (updMonth md k (fun p => (p.1 + 1, p.2))) = rouSum md := by
  unfold rouSum updMonth
  rw [List.map_map]
  apply congrArg
  apply List.map_congr_left
  intro e _
  by_cases h : e.1 = k <;> simp [h]

theorem updMonth_not_mem (md : List ((ℕ × ℕ) × ℕ × ℕ)) (k : ℕ × ℕ)
    (f : ℕ × ℕ → ℕ × ℕ) (h : k ∉ monthKeys md) : updMonth md k f = md := by
  unfold updMonth
  conv_rhs => rw [← List.map_id md]
  apply List.map_congr_left
  intro e he
  have : e.1 ≠ k := fun hc => h (hc ▸ List.mem_map_of_mem (·.1) he)
  simp [this]

theorem newSum_cons (e : (ℕ × ℕ) × ℕ × ℕ) (l : List ((ℕ × ℕ) × ℕ × ℕ)) :
    newSum (e :: l) = e.2.1 + newSum l := by
  unfold newSum
  simp

theorem rouSum_cons (e : (ℕ × ℕ) × ℕ × ℕ) (l : List ((ℕ × ℕ) × ℕ × ℕ)) :
    rouSum (e :: l) = e.2.2 + rouSum l := by
  unfold rouSum
  simp

theorem updMonth_cons (e : (ℕ × ℕ) × ℕ × ℕ) (l : List ((ℕ × ℕ) × ℕ × ℕ))
    (k : ℕ × ℕ) (f : ℕ × ℕ → ℕ × ℕ) :
    updMonth (e :: l) k f = (if e.1 = k then (e.1, f e.2) else e) :: updMonth l k f := by
  unfold updMonth
  rw [List.map_cons]

theorem monthKeys_cons (e : (ℕ × ℕ) × ℕ × ℕ) (rest : List ((ℕ × ℕ) × ℕ × ℕ)) :
    monthKeys (e :: rest) = e.1 :: monthKeys rest := rfl

theorem newSum_updMonth_new (md : List ((ℕ × ℕ) × ℕ × ℕ)) (k : ℕ × ℕ)
    (hmem : k ∈ monthKeys md) (hnd : (monthKeys md).Nodup) :
    newSum (updMonth md k (fun p => (p.1 + 1, p.2))) = newSum md + 1 := by
  induction md with
  | nil => simp [monthKeys] at hmem
  | cons e rest ih =>
    rw [monthKeys_cons] at hnd hmem
    have hnd' := List.nodup_cons.mp hnd
    rw [updMonth_cons]
    by_cases he : e.1 = k
    · rw [if_pos he]
      rw [updMonth_not_mem rest k _ (he ▸ hnd'.1)]
      rw [newSum_cons, newSum_cons]
      simp <;> omega
    · rw [if_neg he]
      have hmem' : k ∈ monthKeys rest := by
        rcases List.mem_cons.mp hmem with h | h
        · exact absurd h.symm he
        · exact h
      rw [newSum_cons, newSum_cons, ih hmem' hnd'.2]
      omega

theorem rouSum_updMonth_routine (md : List ((ℕ × ℕ) × ℕ × ℕ)) (k : ℕ × ℕ)
    (hmem : k ∈ monthKeys md) (hnd : (monthKeys md).Nodup) :
    rouSum (updMonth md k (fun p => (p.1, p.2 + 1))) = rouSum md + 1 := by
  induction md with
  | nil => simp [monthKeys] at hmem
  | cons e rest ih =>
    rw [monthKeys_cons] at hnd hmem
    have hnd' := List.nodup_cons.mp hnd
    rw [updMonth_cons]
    by_cases he : e.1 = k
    · rw [if_pos he]
      rw [updMonth_not_mem rest k _ (he ▸ hnd'.1)]
      rw [rouSum_cons, rouSum_cons]
      simp <;> omega
    · rw [if_neg he]
      have hmem' : k ∈ monthKeys rest := by
        rcases List.mem_cons.mp hmem with h | h
        · exact absurd h.symm he
        · exact h
      rw [rouSum_cons, rouSum_cons, ih hmem' hnd'.2]
      omega

theorem ensureMonth_mem (md : List ((ℕ × ℕ) × ℕ × ℕ)) (k : ℕ × ℕ) :
    k ∈ monthKeys (ensureMonth md k) := by
  unfold ensureMonth
  split
  · rename_i h
    rw [Option.isSome_iff_exists] at h
    obtain ⟨e, he⟩ := h
    have h1 := List.find?_some he
    have h2 := List.mem_of_find?_eq_some he
    have : e.1 = k := by simpa using h1
    exact this ▸ List.mem_map_of_mem (·.1) h2
  · unfold monthKeys
    simp

theorem ensureMonth_nodup (md : List ((ℕ × ℕ) × ℕ × ℕ)) (k : ℕ × ℕ)
    (hnd : (monthKeys md).Nodup) : (monthKeys (ensureMonth md k)).Nodup := by
  unfold ensureMonth
  split
  · exact hnd
  · rename_i h
    have hno : k ∉ monthKeys md := by
      intro hc
      unfold monthKeys at hc
      obtain ⟨e, he, hek⟩ := List.mem_map.mp hc
      have := List.find?_eq_none.mp (Option.not_isSome_iff_eq_none.mp h) e he
      simp [hek] at this
    have hkeys : monthKeys (md ++ [(k, (0, 0))]) = monthKeys md ++ [k] := by
      unfold monthKeys
      rw [List.map_append]
      rfl
    rw [hkeys, List.nodup_append]
    refine ⟨hnd, List.nodup_singleton k, ?_⟩
    intro a ha hb
    rw [List.mem_singleton] at hb
    exact hno (hb ▸ ha)

theorem ensureMonth_newSum (md : List ((ℕ × ℕ) × ℕ × ℕ)) (k : ℕ × ℕ) :
    newSum (ensureMonth md k) = newSum md := by
  unfold ensureMonth
  split
  · rfl
  · unfold newSum
    rw [List.map_append]
    simp

theorem ensureMonth_rouSum (md : List ((ℕ × ℕ) × ℕ × ℕ)) (k : ℕ × ℕ) :
    rouSum (ensureMonth md k) = rouSum md := by
  unfold ensureMonth
  split
  · rfl
  · unfold rouSum
    rw [List.map_append]
    simp

/-! ### Invariants of the aggregation loop -/

theorem foldBlocks (m : ℕ × ℕ) :
    ∀ (l : List (ℚ × ℚ)) (st : HistState),
      m ∈ monthKeys st.monthly → (monthKeys st.monthly).Nodup →
      monthKeys (l.foldl (processBlock m) st).monthly = monthKeys st.monthly ∧
      (l.foldl (processBlock m) st).global_seen = st.global_seen ∪ l.toFinset ∧
      (l.foldl (processBlock m) st).availYears = st.availYears ∧
      (l.foldl (processBlock m) st).availSports = st.availSports ∧
      (st.total_blocks = st.global_seen.card →
        (l.foldl (processBlock m) st).total_blocks
          = (l.foldl (processBlock m) st).global_seen.card) ∧
      (newSum st.monthly = st.total_blocks →
        newSum (l.foldl (processBlock m) st).monthly
          = (l.foldl (processBlock m) st).total_blocks) ∧
      newSum (l.foldl (processBlock m) st).monthly
          + rouSum (l.foldl (processBlock m) st).monthly
        = newSum st.monthly + rouSum st.monthly + l.length := by
  intro l
  induction l with
  | nil =>
    intro st hmem hnd
    refine ⟨rfl, by simp, rfl, rfl, fun h => h, fun h => h, by simp⟩
  | cons b bs ih =>
    intro st hmem hnd
    rw [List.foldl_cons]
    have hkeys1 : monthKeys (processBlock m st b).monthly = monthKeys st.monthly := by
      unfold processBlock
      split <;> (dsimp only; exact updMonth_keys _ _ _)
    have hseen1 : (processBlock m st b).global_seen = insert b st.global_seen := by
      unfold processBlock
      split
      · rename_i hb
        exact (Finset.insert_eq_self.mpr hb).symm
      · rfl
    have hyears1 : (processBlock m st b).availYears = st.availYears := by
      unfold processBlock
      split <;> rfl
    have hsports1 : (processBlock m st b).availSports = st.availSports := by
      unfold processBlock
      split <;> rfl
    have htc1 : st.total_blocks = st.global_seen.card →
        (processBlock m st b).total_blocks = (processBlock m st b).global_seen.card := by
      unfold processBlock
      split
      · rename_i hb
        intro h
        show st.total_blocks = st.global_seen.card
        exact h
      · rename_i hb
        intro h
        show st.total_blocks + 1 = (insert b st.global_seen).card
        rw [Finset.card_insert_of_not_mem hb, h]
    have hns1 : newSum st.monthly = st.total_blocks →
        newSum (processBlock m st b).monthly = (processBlock m st b).total_blocks := by
      unfold processBlock
      split
      · intro h
        dsimp only
        rw [newSum_updMonth_routine]
        exact h
      · intro h
        dsimp only
        rw [newSum_updMonth_new st.monthly m hmem hnd]
        omega
    have hsum1 : newSum (processBlock m st b).monthly + rouSum (processBlock m st b).monthly
        = newSum st.monthly + rouSum st.monthly + 1 := by
      unfold processBlock
      split
      · dsimp only
        rw [newSum_updMonth_routine, rouSum_updMonth_routine st.monthly m hmem hnd]
        omega
      · dsimp only
        rw [newSum_updMonth_new st.monthly m hmem hnd, rouSum_updMonth_new]
        omega
    obtain ⟨ik, is, iy, isp, itc, ins, isum⟩ :=
      ih (processBlock m st b) (hkeys1.symm ▸ hmem) (hkeys1.symm ▸ hnd)
    refine ⟨?_, ?_, ?_, ?_, ?_, ?_, ?_⟩
    · rw [ik, hkeys1]
    · rw [is, hseen1, List.toFinset_cons]
      ext y
      simp only [Finset.mem_union, Finset.mem_insert, List.mem_toFinset]
      tauto
    · rw [iy, hyears1]
    · rw [isp, hsports1]
    · intro h
      exact itc (htc1 h)
    · intro h
      exact ins (hns1 h)
    · rw [isum, hsum1, List.length_cons]
      omega

theorem processTrack_none_of_parse (g : ℚ) (sy ss : String) (st : HistState)
    (t : Track) (hp : parseTimestamp t.start_date_local = none) :
    processTrack g sy ss st t = none := by
  unfold processTrack
  rw [hp]

theorem processTrack_some_of_parse (g : ℚ) (sy ss : String) (st : HistState)
    (t : Track) (dt : Stamp) (hp : parseTimestamp t.start_date_local = some dt) :
    ∃ st1, processTrack g sy ss st t = some st1 := by
  unfold processTrack
  rw [hp]
  dsimp only
  split
  · exact ⟨_, rfl⟩
  · exact ⟨_, rfl⟩

theorem passesFilter_of_parse (sy ss : String) (t : Track) (dt : Stamp)
    (hp : parseTimestamp t.start_date_local = some dt) :
    passesFilter sy ss t
      = decide (¬((sy ≠ "all" ∧ toString dt.year ≠ sy) ∨
                  (ss ≠ "all" ∧ t.type ≠ ss))) := by
  unfold passesFilter
  rw [hp]

theorem processTrack_some (g : ℚ) (sy ss : String) (st : HistState) (t : Track)
    (st' : HistState) (h : processTrack g sy ss st t = some st')
    (hnd : (monthKeys st.monthly).Nodup) :
    (monthKeys st'.monthly).Nodup ∧
    st'.global_seen = st.global_seen ∪
      (if passesFilter sy ss t then trackCells g t else ∅) ∧
    (st.total_blocks = st.global_seen.card →
      st'.total_blocks = st'.global_seen.card) ∧
    (newSum st.monthly = st.total_blocks → newSum st'.monthly = st'.total_blocks) ∧
    newSum st'.monthly + rouSum st'.monthly
      = newSum st.monthly + rouSum st.monthly
        + (if passesFilter sy ss t then (trackCells g t).card else 0) := by
  cases hp : parseTimestamp t.start_date_local with
  | none =>
    rw [processTrack_none_of_parse g sy ss st t hp] at h
    exact absurd h (by simp)
  | some dt =>
    have hpf := passesFilter_of_parse sy ss t dt hp
    unfold processTrack at h
    rw [hp] at h
    dsimp only at h
    split at h
    · -- filtered out
      rename_i hc
      have hpf' : passesFilter sy ss t = false := by
        rw [hpf]
        exact decide_eq_false (fun hn => hn hc)
      cases h
      rw [hpf']
      refine ⟨hnd, by simp, fun hh => hh, fun hh => hh, by simp⟩
    · -- processed
      rename_i hc
      have hpf' : passesFilter sy ss t = true := by
        rw [hpf]
        exact decide_eq_true hc
      have hmem2 : (dt.year, dt.month) ∈ monthKeys (ensureMonth st.monthly (dt.year, dt.month)) :=
        ensureMonth_mem st.monthly _
      have hnd2 : (monthKeys (ensureMonth st.monthly (dt.year, dt.month))).Nodup :=
        ensureMonth_nodup st.monthly _ hnd
      obtain ⟨fk, fs, fy, fsp, ftc, fns, fsum⟩ :=
        foldBlocks (dt.year, dt.month) (cellsListP t.polyline g)
          { st with
            availYears := pushNew st.availYears (toString dt.year),
            availSports := pushNew st.availSports t.type,
            monthly := ensureMonth st.monthly (dt.year, dt.month) }
          hmem2 hnd2
      cases h
      rw [hpf']
      refine ⟨?_, ?_, ?_, ?_, ?_⟩
      · rw [fk]
        exact hnd2
      · rw [fs]
        dsimp only
        rw [cellsListP_toFinset]
        rfl
      · intro hh
        exact ftc hh
      · intro hh
        apply fns
        dsimp only
        rw [ensureMonth_newSum]
        exact hh
      · rw [fsum]
        dsimp only
        rw [ensureMonth_newSum, ensureMonth_rouSum, cellsListP_length]
        rfl

theorem observedCells_cons (g : ℚ) (sy ss : String) (t : Track) (ts : List Track) :
    observedCells g sy ss (t :: ts)
      = (if passesFilter sy ss t then trackCells g t else ∅) ∪ observedCells g sy ss ts := by
  unfold observedCells
  rw [List.filter_cons]
  by_cases hp : passesFilter sy ss t
  · rw [if_pos hp, if_pos hp]
    rfl
  · rw [if_neg hp, if_neg hp]
    rw [Finset.empty_union]

theorem pairCount_cons (g : ℚ) (sy ss : String) (t : Track) (ts : List Track) :
    pairCount g sy ss (t :: ts)
      = (if passesFilter sy ss t then (trackCells g t).card else 0)
        + pairCount g sy ss ts := by
  unfold pairCount
  rw [List.filter_cons]
  by_cases hp : passesFilter sy ss t
  · rw [if_pos hp, if_pos hp]
    rfl
  · rw [if_neg hp, if_neg hp]
    omega

theorem histLoop_inv (g : ℚ) (sy ss : String) :
    ∀ (ts : List Track) (st st' : HistState),
      histLoop g sy ss ts st = some st' → (monthKeys st.monthly).Nodup →
      (monthKeys st'.monthly).Nodup ∧
      st'.global_seen = st.global_seen ∪ observedCells g sy ss ts ∧
      (st.total_blocks = st.global_seen.card →
        st'.total_blocks = st'.global_seen.card) ∧
      (newSum st.monthly = st.total_blocks →
        newSum st'.monthly = st'.total_blocks) ∧
      newSum st'.monthly + rouSum st'.monthly
        = newSum st.monthly + rouSum st.monthly + pairCount g sy ss ts := by
  intro ts
  induction ts with
  | nil =>
    intro st st' h hnd
    cases h
    refine ⟨hnd, by simp [observedCells], fun hh => hh, fun hh => hh,
      by simp [pairCount]⟩
  | cons t ts ih =>
    intro st st' h hnd
    unfold histLoop at h
    cases hpt : processTrack g sy ss st t with
    | none =>
      rw [hpt] at h
      exact absurd h (by simp)
    | some st1 =>
      rw [hpt] at h
      dsimp only at h
      obtain ⟨pk, ps, ptc, pns, psum⟩ := processTrack_some g sy ss st t st1 hpt hnd
      obtain ⟨ik, is2, itc, ins, isum⟩ := ih st1 st' h pk
      refine ⟨ik, ?_, ?_, ?_, ?_⟩
      · rw [is2, ps, observedCells_cons, Finset.union_assoc]
      · intro hh
        exact itc (ptc hh)
      · intro hh
        exact ins (pns hh)
      · rw [isum, psum, pairCount_cons]
        omega

theorem histLoop_none (g : ℚ) (sy ss : String) :
    ∀ (ts : List Track) (st : HistState),
      (∃ t ∈ ts, parseTimestamp t.start_date_local = none) →
      histLoop g sy ss ts st = none := by
  intro ts
  induction ts with
  | nil =>
    intro st h
    obtain ⟨t, ht, _⟩ := h
    exact absurd ht (List.not_mem_nil t)
  | cons t ts ih =>
    intro st h
    unfold histLoop
    cases hp : parseTimestamp t.start_date_local with
    | none =>
      rw [processTrack_none_of_parse g sy ss st t hp]
    | some dt =>
      obtain ⟨st1, hst1⟩ := processTrack_some_of_parse g sy ss st t dt hp
      rw [hst1]
      dsimp only
      obtain ⟨u, hu, hup⟩ := h
      rcases List.mem_cons.mp hu with rfl | hu'
      · rw [hp] at hup
        exact absurd hup (by simp)
      · exact ih st1 ⟨u, hu', hup⟩

/-! ### Properties of the series builder -/

theorem buildSeries_cons (md : List ((ℕ × ℕ) × ℕ × ℕ)) (m : ℕ × ℕ)
    (rest : List (ℕ × ℕ)) (running : ℕ) :
    buildSeries md (m :: rest) running
      = (((running + ((findMonth md m).getD (0, 0)).1)
            :: (buildSeries md rest (running + ((findMonth md m).getD (0, 0)).1)).1),
         (((findMonth md m).getD (0, 0)).1
            :: (buildSeries md rest (running + ((findMonth md m).getD (0, 0)).1)).2.1),
         (((findMonth md m).getD (0, 0)).2
            :: (buildSeries md rest (running + ((findMonth md m).getD (0, 0)).1)).2.2)) := rfl

theorem buildSeries_explore (md : List ((ℕ × ℕ) × ℕ × ℕ)) :
    ∀ (labels : List (ℕ × ℕ)) (running : ℕ),
      (buildSeries md labels running).2.1
        = labels.map (fun m => ((findMonth md m).getD (0, 0)).1) := by
  intro labels
  induction labels with
  | nil => intro running; rfl
  | cons m rest ih =>
    intro running
    rw [buildSeries_cons, List.map_cons]
    dsimp only
    rw [ih]

theorem buildSeries_routine (md : List ((ℕ × ℕ) × ℕ × ℕ)) :
    ∀ (labels : List (ℕ × ℕ)) (running : ℕ),
      (buildSeries md labels running).2.2
        = labels.map (fun m => ((findMonth md m).getD (0, 0)).2) := by
  intro labels
  induction labels with
  | nil => intro running; rfl
  | cons m rest ih =>
    intro running
    rw [buildSeries_cons, List.map_cons]
    dsimp only
    rw [ih]

theorem buildSeries_getD (md : List ((ℕ × ℕ) × ℕ × ℕ)) :
    ∀ (labels : List (ℕ × ℕ)) (running : ℕ) (i : ℕ),
      i < (buildSeries md labels running).1.length →
      (buildSeries md labels running).1.getD i 0
        = running + (((buildSeries md labels running).2.1.take (i + 1)).sum) := by
  intro labels
  induction labels with
  | nil =>
    intro running i hi
    exact absurd hi (by simp [buildSeries])
  | cons m rest ih =>
    intro running i hi
    rw [buildSeries_cons] at hi ⊢
    dsimp only at hi ⊢
    match i with
    | 0 => simp
    | Nat.succ j =>
      rw [List.getD_cons_succ]
      have := ih (running + ((findMonth md m).getD (0, 0)).1) j (by simpa using hi)
      rw [this]
      rw [List.take_succ_cons, List.sum_cons]
      omega

theorem buildSeries_last (md : List ((ℕ × ℕ) × ℕ × ℕ)) :
    ∀ (labels : List (ℕ × ℕ)) (running : ℕ),
      (buildSeries md labels running).1.getLastD running
        = running + (buildSeries md labels running).2.1.sum := by
  intro labels
  induction labels with
  | nil => intro running; simp [buildSeries]
  | cons m rest ih =>
    intro running
    rw [buildSeries_cons]
    dsimp only
    rw [List.getLastD_cons, ih]
    rw [List.sum_cons]
    omega

theorem buildSeries_sorted (md : List ((ℕ × ℕ) × ℕ × ℕ)) :
    ∀ (labels : List (ℕ × ℕ)) (running : ℕ),
      List.Sorted (· ≤ ·) (buildSeries md labels running).1 ∧
      ∀ x ∈ (buildSeries md labels running).1, running ≤ x := by
  intro labels
  induction labels with
  | nil =>
    intro running
    exact ⟨List.sorted_nil, by simp [buildSeries]⟩
  | cons m rest ih =>
    intro running
    rw [buildSeries_cons]
    dsimp only
    obtain ⟨ihs, ihb⟩ := ih (running + ((findMonth md m).getD (0, 0)).1)
    constructor
    · rw [List.sorted_cons]
      exact ⟨fun b hb => ihb b hb, ihs⟩
    · intro x hx
      rcases List.mem_cons.mp hx with rfl | hx'
      · exact Nat.le_add_right _ _
      · exact le_trans (Nat.le_add_right running _) (ihb x hx')

/-! ### Summing the series over the label permutation -/

theorem findMonth_cons_self (e : (ℕ × ℕ) × ℕ × ℕ) (rest : List ((ℕ × ℕ) × ℕ × ℕ)) :
    findMonth (e :: rest) e.1 = some e.2 := by
  unfold findMonth
  rw [List.find?_cons_of_pos _ (by simp)]
  rfl

theorem findMonth_cons_ne (e : (ℕ × ℕ) × ℕ × ℕ) (rest : List ((ℕ × ℕ) × ℕ × ℕ))
    (m : ℕ × ℕ) (h : m ≠ e.1) : findMonth (e :: rest) m = findMonth rest m := by
  unfold findMonth
  rw [List.find?_cons_of_neg _ (by simp [Ne.symm]; exact fun hc => h hc.symm)]

theorem sum_new_over_keys :
    ∀ (md : List ((ℕ × ℕ) × ℕ × ℕ)), (monthKeys md).Nodup →
      ((monthKeys md).map (fun m => ((findMonth md m).getD (0, 0)).1)).sum = newSum md := by
  intro md
  induction md with
  | nil => intro _; rfl
  | cons e rest ih =>
    intro hnd
    rw [monthKeys_cons] at hnd ⊢
    have hnd' := List.nodup_cons.mp hnd
    rw [List.map_cons, List.sum_cons, findMonth_cons_self]
    have hcongr : (monthKeys rest).map (fun m => ((findMonth (e :: rest) m).getD (0, 0)).1)
        = (monthKeys rest).map (fun m => ((findMonth rest m).getD (0, 0)).1) := by
      apply List.map_congr_left
      intro m hm
      rw [findMonth_cons_ne e rest m (fun hc => hnd'.1 (hc ▸ hm))]
    rw [hcongr, ih hnd'.2, newSum_cons]
    rfl

theorem sum_rou_over_keys :
    ∀ (md : List ((ℕ × ℕ) × ℕ × ℕ)), (monthKeys md).Nodup →
      ((monthKeys md).map (fun m => ((findMonth md m).getD (0, 0)).2)).sum = rouSum md := by
  intro md
  induction md with
  | nil => intro _; rfl
  | cons e rest ih =>
    intro hnd
    rw [monthKeys_cons] at hnd ⊢
    have hnd' := List.nodup_cons.mp hnd
    rw [List.map_cons, List.sum_cons, findMonth_cons_self]
    have hcongr : (monthKeys rest).map (fun m => ((findMonth (e :: rest) m).getD (0, 0)).2)
        = (monthKeys rest).map (fun m => ((findMonth rest m).getD (0, 0)).2) := by
      apply List.map_congr_left
      intro m hm
      rw [findMonth_cons_ne e rest m (fun hc => hnd'.1 (hc ▸ hm))]
    rw [hcongr, ih hnd'.2, rouSum_cons]
    rfl

theorem mem_observedCells (g : ℚ) (sy ss : String) :
    ∀ (l : List Track) (x : ℚ × ℚ),
      x ∈ observedCells g sy ss l ↔
        ∃ t, t ∈ l ∧ passesFilter sy ss t = true ∧ x ∈ trackCells g t := by
  intro l
  induction l with
  | nil =>
    intro x
    simp [observedCells]
  | cons t ts ih =>
    intro x
    rw [observedCells_cons]
    by_cases hp : passesFilter sy ss t
    · rw [if_pos hp]
      rw [Finset.mem_union, ih]
      constructor
      · rintro (hx | ⟨u, hu, hup, hxu⟩)
        · exact ⟨t, List.mem_cons_self t ts, hp, hx⟩
        · exact ⟨u, List.mem_cons_of_mem t hu, hup, hxu⟩
      · rintro ⟨u, hu, hup, hxu⟩
        rcases List.mem_cons.mp hu with rfl | hu'
        · exact Or.inl hxu
        · exact Or.inr ⟨u, hu', hup, hxu⟩
    · rw [if_neg hp, Finset.empty_union, ih]
      constructor
      · rintro ⟨u, hu, hup, hxu⟩
        exact ⟨u, List.mem_cons_of_mem t hu, hup, hxu⟩
      · rintro ⟨u, hu, hup, hxu⟩
        rcases List.mem_cons.mp hu with rfl | hu'
        · exact absurd hup (by simpa using hp)
        · exact ⟨u, hu', hup, hxu⟩

theorem observedCells_perm (g : ℚ) (sy ss : String) (l l' : List Track)
    (hperm : List.Perm l l') :
    observedCells g sy ss l = observedCells g sy ss l' := by
  ext x
  rw [mem_observedCells, mem_observedCells]
  constructor
  · rintro ⟨t, ht, h1, h2⟩
    exact ⟨t, hperm.mem_iff.mp ht, h1, h2⟩
  · rintro ⟨t, ht, h1, h2⟩
    exact ⟨t, hperm.mem_iff.mpr ht, h1, h2⟩

theorem pairCount_perm (g : ℚ) (sy ss : String) (l l' : List Track)
    (hperm : List.Perm l l') : pairCount g sy ss l = pairCount g sy ss l' := by
  unfold pairCount
  exact List.Perm.sum_eq ((hperm.filter _).map _)

/-- Unpacking a successful `get_stats_history` run. -/
theorem get_stats_history_spec (tracks : List Track) (gm : ℤ) (sy ss : String)
    (r : HistResult) (h : get_stats_history tracks gm sy ss = some r) :
    ∃ st : HistState,
      (monthKeys st.monthly).Nodup ∧
      st.global_seen = observedCells ((gm : ℚ) / 111320) sy ss tracks ∧
      st.total_blocks = st.global_seen.card ∧
      newSum st.monthly = st.total_blocks ∧
      newSum st.monthly + rouSum st.monthly
        = pairCount ((gm : ℚ) / 111320) sy ss tracks ∧
      r.conquest = (buildSeries st.monthly r.labels 0).1 ∧
      r.exploration = (buildSeries st.monthly r.labels 0).2.1 ∧
      r.routine = (buildSeries st.monthly r.labels 0).2.2 ∧
      List.Perm r.labels (monthKeys st.monthly) := by
  unfold get_stats_history at h
  dsimp only at h
  cases hl : histLoop ((gm : ℚ) / 111320) sy ss
      (sortBy (fun a b => strLe a.start_date_local b.start_date_local) tracks)
      ⟨[], ∅, 0, [], []⟩ with
  | none =>
    rw [hl] at h
    exact absurd h (by simp)
  | some st =>
    rw [hl] at h
    dsimp only at h
    injection h with h2
    subst h2
    obtain ⟨hk, hseen, htc, hns, hsum⟩ :=
      histLoop_inv ((gm : ℚ) / 111320) sy ss
        (sortBy (fun a b => strLe a.start_date_local b.start_date_local) tracks)
        ⟨[], ∅, 0, [], []⟩ st hl List.nodup_nil
    have hperm := sortBy_perm
      (fun (a : Track) (b : Track) => strLe a.start_date_local b.start_date_local) tracks
    refine ⟨st, hk, ?_, ?_, ?_, ?_, rfl, rfl, rfl, sortBy_perm monthLeB _⟩
    · rw [hseen, Finset.empty_union]
      exact observedCells_perm _ sy ss _ _ hperm
    · exact htc (by simp)
    · exact hns rfl
    · calc newSum st.monthly + rouSum st.monthly
          = 0 + 0 + pairCount ((gm : ℚ) / 111320) sy ss
              (sortBy (fun a b => strLe a.start_date_local b.start_date_local) tracks) := hsum
        _ = pairCount ((gm : ℚ) / 111320) sy ss tracks := by
            rw [pairCount_perm _ sy ss _ _ hperm]
            omega

/-- Claim C3: for every collection of tracks and every filter, the
cumulative conquest series is non-decreasing, each entry equals the sum
of the "new" (exploration) counts of all months up to and including that
month, and the final entry equals the total number of distinct cells
observed in the scan. -/
theorem claim_C3 (tracks : List Track) (gm : ℤ) (sy ss : String) (r : HistResult)
    (h : get_stats_history tracks gm sy ss = some r) :
    List.Sorted (· ≤ ·) r.conquest ∧
    (∀ i, i < r.conquest.length →
      r.conquest.getD i 0 = (r.exploration.take (i + 1)).sum) ∧
    r.conquest.getLastD 0
      = (observedCells ((gm : ℚ) / 111320) sy ss tracks).card := by
  obtain ⟨st, hk, hseen, htc, hns, _, hcq, hex, _, hpl⟩ :=
    get_stats_history_spec tracks gm sy ss r h
  refine ⟨?_, ?_, ?_⟩
  · rw [hcq]
    exact (buildSeries_sorted st.monthly r.labels 0).1
  · intro i hi
    rw [hcq] at hi ⊢
    rw [hex]
    have := buildSeries_getD st.monthly r.labels 0 i hi
    simpa using this
  · rw [hcq, buildSeries_last, buildSeries_explore]
    have hsumlab : (r.labels.map (fun m => ((findMonth st.monthly m).getD (0, 0)).1)).sum
        = newSum st.monthly := by
      rw [List.Perm.sum_eq (hpl.map _)]
      exact sum_new_over_keys st.monthly hk
    rw [hsumlab, hns, htc, hseen]
    omega

/-- Witness for C3 at the concrete run `[tGood]`. -/
theorem claim_C3_witness :
    List.Sorted (· ≤ ·) resGood.conquest ∧
    (∀ i, i < resGood.conquest.length →
      resGood.conquest.getD i 0 = (resGood.exploration.take (i + 1)).sum) ∧
    resGood.conquest.getLastD 0
      = (observedCells (((100 : ℤ) : ℚ) / 111320) "all" "all" [tGood]).card :=
  claim_C3 [tGood] 100 "all" "all" resGood (by decide)

/-- Claim C6: for a fixed filter, the sum of the "new" (exploration)
counts plus the "routine" counts over all months equals the total number
of (track, cell)-occurrence pairs scanned. -/
theorem claim_C6 (tracks : List Track) (gm : ℤ) (sy ss : String) (r : HistResult)
    (h : get_stats_history tracks gm sy ss = some r) :
    r.exploration.sum + r.routine.sum
      = pairCount ((gm : ℚ) / 111320) sy ss tracks := by
  obtain ⟨st, hk, _, _, _, hsum, _, hex, hro, hpl⟩ :=
    get_stats_history_spec tracks gm sy ss r h
  rw [hex, hro, buildSeries_explore, buildSeries_routine]
  rw [List.Perm.sum_eq (hpl.map _), List.Perm.sum_eq (hpl.map _)]
  rw [sum_new_over_keys st.monthly hk, sum_rou_over_keys st.monthly hk]
  exact hsum

/-- Witness for C6 at the concrete run `[tGood]`. -/
theorem claim_C6_witness :
    resGood.exploration.sum + resGood.routine.sum
      = pairCount (((100 : ℤ) : ℚ) / 111320) "all" "all" [tGood] :=
  claim_C6 [tGood] 100 "all" "all" resGood (by decide)

/-- Counterexample for C2: a collection containing a track with an
unparseable start timestamp makes the whole aggregation abort (return
`none`, i.e. `strptime` raises and the request fails) instead of
skipping that track: processing only the remaining track succeeds. -/
theorem claim_C2_counterexample :
    get_stats_history [tBad, tGood] 100 "all" "all" = none ∧
    get_stats_history [tGood] 100 "all" "all" = some resGood := by
  constructor
  · decide
  · decide

/-- Claim C2 (amended): an unparseable start timestamp on any track
aborts the whole aggregation run — `get_stats_history` returns `none`
whenever some track's timestamp fails to parse, instead of rejecting
only the offending track. -/
theorem claim_C2_amended (tracks : List Track) (gm : ℤ) (sy ss : String)
    (h : ∃ t ∈ tracks, parseTimestamp t.start_date_local = none) :
    get_stats_history tracks gm sy ss = none := by
  obtain ⟨t, ht, hp⟩ := h
  unfold get_stats_history
  dsimp only
  rw [histLoop_none ((gm : ℚ) / 111320) sy ss _ _
    ⟨t, (sortBy_perm (fun a b => strLe a.start_date_local b.start_date_local)
          tracks).mem_iff.mpr ht, hp⟩]

/-- Witness for C2 (amended) at the concrete input `[tBad]`. -/
theorem claim_C2_amended_witness :
    get_stats_history [tBad] 100 "all" "all" = none :=
  claim_C2_amended [tBad] 100 "all" "all"
    ⟨tBad, List.mem_singleton_self tBad, by decide⟩

theorem handleMuni_lookups (pip : List (ℚ × ℚ) → ℚ × ℚ → Bool) (gm : ℤ)
    (ks : List (ℚ × ℚ)) (m : Muni) (st : RegionState) :
    (handleMuni pip gm ks m st).lookups = st.lookups := by
  unfold handleMuni
  dsimp only
  split
  · rfl
  · split
    · rfl
    · split
      · rfl
      · rfl

theorem handleMuni_cache (pip : List (ℚ × ℚ) → ℚ × ℚ → Bool) (gm : ℤ)
    (ks : List (ℚ × ℚ)) (m : Muni) (st : RegionState) :
    (handleMuni pip gm ks m st).cache = st.cache := by
  unfold handleMuni
  dsimp only
  split
  · rfl
  · split
    · rfl
    · split
      · rfl
      · rfl

theorem handleMuni_cities_le (pip : List (ℚ × ℚ) → ℚ × ℚ → Bool) (gm : ℤ)
    (ks : List (ℚ × ℚ)) (m : Muni) (st : RegionState)
    (h : st.cities.length ≤ 50) : (handleMuni pip gm ks m st).cities.length ≤ 50 := by
  unfold handleMuni
  dsimp only
  split
  · exact h
  · rename_i hc
    push_neg at hc
    split
    · exact h
    · split
      · dsimp only
        rw [List.length_append]
        have := hc.2
        simp only [List.length_singleton]
        omega
      · exact h

theorem handleMuni_cities_inv (pip : List (ℚ × ℚ) → ℚ × ℚ → Bool) (gm : ℤ)
    (ks : List (ℚ × ℚ)) (prov : Muni → Prop) (m : Muni) (st : RegionState)
    (hm : prov m) (h : ∀ e ∈ st.cities, CityOk pip gm ks prov e) :
    ∀ e ∈ (handleMuni pip gm ks m st).cities, CityOk pip gm ks prov e := by
  unfold handleMuni
  dsimp only
  split
  · exact h
  · split
    · exact h
    · split
      · rename_i hcnt
        intro e he
        dsimp only at he
        rcases List.mem_append.mp he with he' | he'
        · exact h e he'
        · rw [List.mem_singleton] at he'
          subst he'
          exact ⟨m, hm, rfl, rfl, rfl, hcnt, rfl⟩
      · exact h

theorem processPoint_lookups_le (lookup : ℚ → ℚ → Option Muni)
    (pip : List (ℚ × ℚ) → ℚ × ℚ → Bool) (gm : ℤ) (ks : List (ℚ × ℚ))
    (st : RegionState) (p : ℚ × ℚ) :
    (processPoint lookup pip gm ks st p).lookups ≤ st.lookups + 1 := by
  unfold processPoint
  dsimp only
  split
  · rw [handleMuni_lookups]
    omega
  · split
    · dsimp only
      omega
    · rw [handleMuni_lookups]

theorem processPoint_inv (lookup : ℚ → ℚ → Option Muni)
    (pip : List (ℚ × ℚ) → ℚ × ℚ → Bool) (gm : ℤ) (ks : List (ℚ × ℚ))
    (prov : Muni → Prop) (st : RegionState) (p : ℚ × ℚ)
    (hp : ∀ m : Muni, lookup p.1 p.2 = some m → prov m)
    (hca : ∀ e ∈ st.cache, prov e.2)
    (hci : ∀ e ∈ st.cities, CityOk pip gm ks prov e) :
    (∀ e ∈ (processPoint lookup pip gm ks st p).cache, prov e.2) ∧
    (∀ e ∈ (processPoint lookup pip gm ks st p).cities, CityOk pip gm ks prov e) := by
  unfold processPoint
  dsimp only
  split
  · rename_i e' he'
    constructor
    · rw [handleMuni_cache]
      exact hca
    · exact handleMuni_cities_inv pip gm ks prov e'.2 st
        (hca e' (List.mem_of_find?_eq_some he')) hci
  · split
    · exact ⟨hca, hci⟩
    · rename_i m hm
      constructor
      · rw [handleMuni_cache]
        intro e he
        dsimp only at he
        rcases List.mem_append.mp he with he' | he'
        · exact hca e he'
        · rw [List.mem_singleton] at he'
          subst he'
          exact hp m hm
      · exact handleMuni_cities_inv pip gm ks prov m _ (hp m hm) hci

theorem processPoint_cities_le (lookup : ℚ → ℚ → Option Muni)
    (pip : List (ℚ × ℚ) → ℚ × ℚ → Bool) (gm : ℤ) (ks : List (ℚ × ℚ))
    (st : RegionState) (p : ℚ × ℚ) (h : st.cities.length ≤ 50) :
    (processPoint lookup pip gm ks st p).cities.length ≤ 50 := by
  unfold processPoint
  dsimp only
  split
  · exact handleMuni_cities_le pip gm ks _ st h
  · split
    · exact h
    · exact handleMuni_cities_le pip gm ks _ _ h

theorem foldPoints_lookups (lookup : ℚ → ℚ → Option Muni)
    (pip : List (ℚ × ℚ) → ℚ × ℚ → Bool) (gm : ℤ) (ks : List (ℚ × ℚ)) :
    ∀ (pts : List (ℚ × ℚ)) (st : RegionState),
      (pts.foldl (processPoint lookup pip gm ks) st).lookups
        ≤ st.lookups + pts.length := by
  intro pts
  induction pts with
  | nil => intro st; simp
  | cons p ps ih =>
    intro st
    rw [List.foldl_cons]
    calc (ps.foldl (processPoint lookup pip gm ks) (processPoint lookup pip gm ks st p)).lookups
        ≤ (processPoint lookup pip gm ks st p).lookups + ps.length := ih _
      _ ≤ st.lookups + 1 + ps.length := by
          have := processPoint_lookups_le lookup pip gm ks st p
          omega
      _ = st.lookups + (p :: ps).length := by
          rw [List.length_cons]
          omega

theorem foldPoints_cities_le (lookup : ℚ → ℚ → Option Muni)
    (pip : List (ℚ × ℚ) → ℚ × ℚ → Bool) (gm : ℤ) (ks : List (ℚ × ℚ)) :
    ∀ (pts : List (ℚ × ℚ)) (st : RegionState), st.cities.length ≤ 50 →
      (pts.foldl (processPoint lookup pip gm ks) st).cities.length ≤ 50 := by
  intro pts
  induction pts with
  | nil => intro st h; exact h
  | cons p ps ih =>
    intro st h
    rw [List.foldl_cons]
    exact ih _ (processPoint_cities_le lookup pip gm ks st p h)

theorem foldPoints_inv (lookup : ℚ → ℚ → Option Muni)
    (pip : List (ℚ × ℚ) → ℚ × ℚ → Bool) (gm : ℤ) (ks : List (ℚ × ℚ))
    (prov : Muni → Prop) :
    ∀ (pts : List (ℚ × ℚ)) (st : RegionState),
      (∀ q ∈ pts, ∀ m : Muni, lookup q.1 q.2 = some m → prov m) →
      (∀ e ∈ st.cache, prov e.2) →
      (∀ e ∈ st.cities, CityOk pip gm ks prov e) →
      ∀ e ∈ (pts.foldl (processPoint lookup pip gm ks) st).cities,
        CityOk pip gm ks prov e := by
  intro pts
  induction pts with
  | nil => intro st _ _ hci; exact hci
  | cons p ps ih =>
    intro st hq hca hci
    rw [List.foldl_cons]
    obtain ⟨hca', hci'⟩ := processPoint_inv lookup pip gm ks prov st p
      (hq p (List.mem_cons_self p ps)) hca hci
    exact ih _ (fun q hqm => hq q (List.mem_cons_of_mem p hqm)) hca' hci'

theorem roundDec2_100 : roundDec 2 (100 : ℚ) = 100 := by
  have h := roundDec_int_div 2 10000
  have e : ((10000 : ℤ) : ℚ) / 10 ^ 2 = 100 := by norm_num
  rw [e] at h
  exact h

theorem mem_top_municipalities (lookup : ℚ → ℚ → Option Muni)
    (pip : List (ℚ × ℚ) → ℚ × ℚ → Bool) (gm : ℤ)
    (gs : List ((ℚ × ℚ) × ℕ)) (r : CityStat)
    (h : r ∈ top_municipalities lookup pip gm gs) :
    ∃ e ∈ (regionPhase lookup pip gm gs).cities, e.2 = r := by
  unfold top_municipalities at h
  split at h
  · exact absurd h (List.not_mem_nil r)
  · have h2 := (sortBy_perm (fun (a : CityStat) (b : CityStat) =>
      decide (b.blocks ≤ a.blocks)) _).mem_iff.mp h
    obtain ⟨e, he, hre⟩ := List.mem_map.mp h2
    exact ⟨e, he, hre⟩

theorem regionPhase_cities_ok (lookup : ℚ → ℚ → Option Muni)
    (pip : List (ℚ × ℚ) → ℚ × ℚ → Bool) (gm : ℤ) (gs : List ((ℚ × ℚ) × ℕ)) :
    ∀ e ∈ (regionPhase lookup pip gm gs).cities,
      CityOk pip gm (gs.map (·.1))
        (fun m => ∃ p ∈ scanPoints gs, lookup p.1 p.2 = some m) e := by
  unfold regionPhase
  apply foldPoints_inv
  · intro q hq m hm
    exact ⟨q, hq, hm⟩
  · intro e he
    exact absurd he (List.not_mem_nil e)
  · intro e he
    exact absurd he (List.not_mem_nil e)

/-- Claim C10: region-lookup probes are drawn only from the 400
most-visited cells (`scanPoints`, sorted descending by visit count): at
most 400 store lookups are issued per request, and every region in the
output was obtained from the store at one of those scan points — a
region reachable only through other cells is never identified. -/
theorem claim_C10 (lookup : ℚ → ℚ → Option Muni)
    (pip : List (ℚ × ℚ) → ℚ × ℚ → Bool) (gm : ℤ) (gs : List ((ℚ × ℚ) × ℕ)) :
    (regionPhase lookup pip gm gs).lookups ≤ 400 ∧
    ∀ r ∈ top_municipalities lookup pip gm gs,
      ∃ p ∈ scanPoints gs, ∃ m : Muni, lookup p.1 p.2 = some m ∧ m.name = r.name := by
  constructor
  · unfold regionPhase
    have h1 := foldPoints_lookups lookup pip gm (gs.map (·.1)) (scanPoints gs)
      ⟨[], [], 0, []⟩
    have h2 : (scanPoints gs).length ≤ 400 := by
      unfold scanPoints
      rw [List.length_map, List.length_take]
      exact min_le_left _ _
    calc ((scanPoints gs).foldl (processPoint lookup pip gm (gs.map (·.1)))
          ⟨[], [], 0, []⟩).lookups
        ≤ (⟨[], [], 0, []⟩ : RegionState).lookups + (scanPoints gs).length := h1
      _ ≤ 400 := by
          dsimp only
          omega
  · intro r hr
    obtain ⟨e, he, hre⟩ := mem_top_municipalities lookup pip gm gs r hr
    obtain ⟨m, ⟨p, hp, hlm⟩, hname, _, _, _, _⟩ :=
      regionPhase_cities_ok lookup pip gm gs e he
    exact ⟨p, hp, m, hlm, by rw [← hre, hname]⟩

/-- Claim C5: every cell counted in an output region's cells-inside
count passes the exact point-in-polygon test (`pip`), the bounding box
being only a pre-filter (`countInside` counts exactly the cells passing
both), and every output region has a cells-inside count of at least 1. -/
theorem claim_C5 (lookup : ℚ → ℚ → Option Muni)
    (pip : List (ℚ × ℚ) → ℚ × ℚ → Bool) (gm : ℤ) (gs : List ((ℚ × ℚ) × ℕ))
    (r : CityStat) (h : r ∈ top_municipalities lookup pip gm gs) :
    0 < r.blocks ∧ r.blocks = countInside pip r.outline (gs.map (·.1)) := by
  obtain ⟨e, he, hre⟩ := mem_top_municipalities lookup pip gm gs r h
  obtain ⟨m, _, _, houtl, hblocks, hpos, _⟩ :=
    regionPhase_cities_ok lookup pip gm gs e he
  subst hre
  exact ⟨hpos, by rw [houtl, hblocks]⟩

/-- Claim C7 (amended): every output region's coverage percentage is the
claimed ratio `min(100, 100·count·cell_area/region_area)` *rounded to 2
decimal places* (Python `round(min(pct, 100), 2)`, line 382) for the
region object the store returned; in particular it never exceeds 100. -/
theorem claim_C7_amended (lookup : ℚ → ℚ → Option Muni)
    (pip : List (ℚ × ℚ) → ℚ × ℚ → Bool) (gm : ℤ) (gs : List ((ℚ × ℚ) × ℕ))
    (r : CityStat) (h : r ∈ top_municipalities lookup pip gm gs) :
    r.percent ≤ 100 ∧
    ∃ m : Muni, (∃ p ∈ scanPoints gs, lookup p.1 p.2 = some m) ∧ m.name = r.name ∧
      r.percent
        = roundDec 2 (min (((r.blocks : ℚ) * ((gm : ℚ)) ^ 2 / m.area_m2) * 100) 100) := by
  obtain ⟨e, he, hre⟩ := mem_top_municipalities lookup pip gm gs r h
  obtain ⟨m, hprov, hname, _, _, _, hpct⟩ :=
    regionPhase_cities_ok lookup pip gm gs e he
  subst hre
  constructor
  · rw [hpct]
    calc roundDec 2 (min (((e.2.blocks : ℚ) * ((gm : ℚ)) ^ 2 / m.area_m2) * 100) 100)
        ≤ roundDec 2 100 := roundDec_mono 2 (min_le_right _ _)
      _ = 100 := roundDec2_100
  · exact ⟨m, hprov, hname.symm, hpct⟩

/-- Claim C1 (amended): the ranked region list never contains more than
50 regions — the cap in the code is `len(identified_cities) < 50`
(line 355), not 70, and it bounds only the identified-regions map, not
the number of store lookups. -/
theorem claim_C1_amended (lookup : ℚ → ℚ → Option Muni)
    (pip : List (ℚ × ℚ) → ℚ × ℚ → Bool) (gm : ℤ) (gs : List ((ℚ × ℚ) × ℕ)) :
    (top_municipalities lookup pip gm gs).length ≤ 50 := by
  unfold top_municipalities
  split
  · simp
  · rw [List.Perm.length_eq (sortBy_perm _ _), List.length_map]
    exact foldPoints_cities_le lookup pip gm _ (scanPoints gs) ⟨[], [], 0, []⟩
      (by simp)

set_option maxRecDepth 10000 in
/-- Counterexample for C1: with 71 probe points each returning a
distinct region, the scan identifies 71 distinct regions — lookups are
issued per probe point and never stop once 70 distinct regions have been
obtained, contradicting the claimed 70-region resource cap (the output
list is bounded, but by the in-code constant 50, and lookups continue
regardless). -/
theorem claim_C1_counterexample :
    ¬ ((regionPhase oracle71 pipFalse 100 store71).seenNames.dedup.length ≤ 70 ∧
       (top_municipalities oracle71 pipFalse 100 store71).length ≤ 70) := by
  decide

/-- Witness accompanying C5 at a concrete input: the single output
region has exactly one cell inside and a positive count. -/
theorem claim_C5_witness :
    0 < rA.blocks ∧ rA.blocks = countInside pipTrue rA.outline (store1.map (·.1)) :=
  claim_C5 oracleA pipTrue 100 store1 rA (by decide)

/-- Counterexample for C7: for a region of area 30000 m² with one
100 m × 100 m cell inside, the claimed coverage value is
`min(100, 100·10000/30000) = 100/3`, but the code stores
`round(min(pct, 100), 2) = 33.33 ≠ 100/3`. -/
theorem claim_C7_counterexample :
    (top_municipalities oracleA pipTrue 100 store1).head?.map (·.percent)
      = some (3333/100) ∧
    (3333 : ℚ)/100 ≠ min (((1 : ℚ) * ((100 : ℚ)) ^ 2 / 30000) * 100) 100 := by
  constructor
  · decide
  · decide

/-- Witness for C7 (amended) at the concrete input `store1`/`oracleA`. -/
theorem claim_C7_amended_witness :
    rA.percent ≤ 100 ∧
    ∃ m : Muni, (∃ p ∈ scanPoints store1, oracleA p.1 p.2 = some m) ∧
      m.name = rA.name ∧
      rA.percent
        = roundDec 2 (min (((rA.blocks : ℚ) * (((100 : ℤ)) : ℚ) ^ 2 / m.area_m2) * 100) 100) :=
  claim_C7_amended oracleA pipTrue 100 store1 rA (by decide)

/-- Witness for C10 at the concrete input `store1`/`oracleA`. -/
theorem claim_C10_witness :
    (regionPhase oracleA pipTrue 100 store1).lookups ≤ 400 ∧
    ∃ p ∈ scanPoints store1, ∃ m : Muni, oracleA p.1 p.2 = some m ∧ m.name = rA.name :=
  ⟨(claim_C10 oracleA pipTrue 100 store1).1,
   (claim_C10 oracleA pipTrue 100 store1).2 rA (by decide)⟩
